import Mathlib

/-!
Shallow embedding of the `mkdocs-extrafiles` plugin
(`src/mkdocs_extrafiles/plugin.py`) and proofs of the specification's
claims about it.

The plugin's code manipulates POSIX-style path strings via `pathlib`
(`Path`, `PurePosixPath`) and expands glob patterns with
`glob.glob(pattern, recursive=True)`.  We embed:

* paths as `String`s in POSIX form (the separator is `/`; a path is
  absolute iff it starts with `/`), matching `pathlib.PosixPath`
  semantics; the string-level operations are defined over the
  underlying character lists.  `Path.resolve()` is modelled as lexical
  normalization of an absolute path (dropping `.` segments and
  resolving `..`), i.e. the behaviour of `resolve()` on a symlink-free
  filesystem;
* the filesystem as a finite listing of regular files and directories,
  each given by its normalized absolute path;
* `glob.glob(pattern, recursive=True)` as segment-wise matching over
  that listing: `**` matches zero or more path segments, and every
  other pattern segment is matched against one path segment by
  `fnmatch`-style matching with `*` and `?` wildcards (character
  classes `[...]` do not occur in the inputs considered here and are
  treated literally);
* the host collaborators (`mkdocs.structure.files.Files`, the live
  reload server, the MkDocs config) by the contracts the plugin uses:
  lookup by URI (most recently appended entry wins, as in the
  `Files._src_uris` dict), removal, and appending a generated entry.
  Python object identity of `File` objects is modelled by tagging each
  entry with a numeric `id` that a fresh construction increments.
-/

namespace ExtraFiles

/-- The character list underlying a string (the POSIX path as a list of
characters). -/
def chars (p : String) : List Char :=
  p.data

/-- Model of `str.split("/")` at character level: the chunks of a
character list between `/` separators.  The result is never empty and
no chunk contains a `/`. -/
def splitSlash : List Char → List (List Char)
  | [] => [[]]
  | c :: cs =>
    let r := splitSlash cs
    if c = '/' then [] :: r
    else
      match r with
      | [] => [[c]]
      | h :: t => (c :: h) :: t

/-- Model of `"/".join(...)` at character level. -/
def joinSegs : List (List Char) → List Char
  | [] => []
  | s :: rest =>
    match rest with
    | [] => s
    | _ :: _ => s ++ '/' :: joinSegs rest

/-- The nonempty segments of a path, in order. -/
def segsL (l : List Char) : List (List Char) :=
  (splitSlash l).filter (fun s => !s.isEmpty)

/-- One step of lexical `..`/`.` resolution, folding left over segments:
`.` is dropped and `..` pops the previous segment (as `Path.resolve()`
does on a symlink-free tree; at the root, `..` stays at the root). -/
def normStep (acc : List (List Char)) (s : List Char) : List (List Char) :=
  if s = ['.'] then acc
  else if s = ['.', '.'] then acc.dropLast
  else acc ++ [s]

/-- Model of `Path.resolve()` applied to an absolute POSIX path:
lexical normalization. -/
def resolveAbsL (l : List Char) : List Char :=
  '/' :: joinSegs ((segsL l).foldl normStep [])

/-- String wrapper for `resolveAbsL`. -/
def resolveAbs (p : String) : String :=
  String.mk (resolveAbsL (chars p))

/-- Model of `pathlib.Path.is_absolute` on POSIX: a path is absolute
iff it starts with `/`. -/
def isAbs (p : String) : Bool :=
  (chars p).head? == some '/'

/-- Model of the pattern `s = Path(src); if not s.is_absolute(): s =
config_dir / s; s = s.resolve()` from the literal branch of
`_expand_items` (`base` is the already-absolute `config_dir`). -/
def resolveFrom (base p : String) : String :=
  resolveAbs (if isAbs p then p else base ++ "/" ++ p)

/-- Model of `str.replace("\\", "/")` at character level. -/
def bsToSlashL (l : List Char) : List Char :=
  l.map (fun c => if c = '\\' then '/' else c)

/-- String wrapper for `bsToSlashL`. -/
def bsToSlash (p : String) : String :=
  String.mk (bsToSlashL (chars p))

/-- Model of `str.rstrip("/\\")` at character level: drop trailing `/`
and `\` characters. -/
def rstripL (l : List Char) : List Char :=
  (l.reverse.dropWhile (fun c => c == '/' || c == '\\')).reverse

/-- String wrapper for `rstripL`. -/
def rstripSlashes (p : String) : String :=
  String.mk (rstripL (chars p))

/-- The sequence of components `PurePosixPath` retains, joined by `/`:
empty and `.` components are dropped (collapsing duplicate and trailing
slashes), `..` is kept. -/
def posixBody (l : List Char) : List Char :=
  joinSegs ((splitSlash l).filter (fun s => !s.isEmpty && s != ['.']))

/-- Model of `PurePosixPath(p).as_posix()` at character level: the
retained components, with a leading `/` preserved (and the special
double-slash root `//`), and the empty path rendered as `.`. -/
def purePosixL (l : List Char) : List Char :=
  match l with
  | '/' :: '/' :: rest =>
    if rest.head? == some '/' then '/' :: posixBody l
    else '/' :: '/' :: posixBody l
  | '/' :: _ => '/' :: posixBody l
  | _ => if posixBody l = [] then ['.'] else posixBody l

/-- String wrapper for `purePosixL`. -/
def purePosix (p : String) : String :=
  String.mk (purePosixL (chars p))

/-- Model of `(PurePosixPath(d) / name).as_posix()` at character level,
for a `name` that contains no separator (here `name` is always a file
basename). -/
def joinNameL (d name : List Char) : List Char :=
  if purePosixL d = ['.'] then name
  else if (purePosixL d).getLast? == some '/' then purePosixL d ++ name
  else purePosixL d ++ '/' :: name

/-- String wrapper for `joinNameL`. -/
def posixJoinName (d name : String) : String :=
  String.mk (joinNameL (chars d) (chars name))

/-- Model of `Path.name` at character level: the final nonempty segment
(empty for the root). -/
def baseNameL (l : List Char) : List Char :=
  ((segsL l).getLast?).getD []

/-- String wrapper for `baseNameL`. -/
def baseName (p : String) : String :=
  String.mk (baseNameL (chars p))

/-- Model of `any(ch in src for ch in ["*", "?", "["])`: the glob
classification test of `_expand_items`. -/
def isGlobPat (src : String) : Bool :=
  (chars src).any (fun c => c == '*' || c == '?' || c == '[')

/-- Model of `dest.endswith(("/", "\\"))`: the directory-destination
test of the glob branch of `_expand_items`. -/
def endsSep (dest : String) : Bool :=
  (chars dest).getLast? == some '/' || (chars dest).getLast? == some '\\'

/-- Model of `fnmatch`-style matching of one pattern segment against
one path segment: `*` matches any (possibly empty) run of characters,
`?` matches exactly one character, every other character matches
itself.  (Character classes `[...]` do not occur in the patterns
considered and are treated as literal characters.) -/
def fnmatchFuel : Nat → List Char → List Char → Bool
  | 0, _, _ => false
  | k + 1, ps0, s0 =>
    match ps0, s0 with
    | [], [] => true
    | [], _ :: _ => false
    | '*' :: ps, s =>
      fnmatchFuel k ps s ||
        (match s with
         | [] => false
         | _ :: cs => fnmatchFuel k ('*' :: ps) cs)
    | '?' :: _, [] => false
    | '?' :: ps, _ :: cs => fnmatchFuel k ps cs
    | _ :: _, [] => false
    | p :: ps, c :: cs => p == c && fnmatchFuel k ps cs

/-- Entry point for `fnmatchFuel`: every recursive step strictly
decreases `ps.length + s.length`, so starting the fuel strictly above
that measure means the `0` case is never reached; the fuel only makes
the recursion structural. -/
def fnmatchL (ps s : List Char) : Bool :=
  fnmatchFuel (ps.length + s.length + 1) ps s

/-- Segment-wise glob matching with `recursive=True`: a `**` pattern
segment matches zero or more path segments; any other pattern segment
matches exactly one path segment via `fnmatchL`. -/
def segMatchFuel : Nat → List (List Char) → List (List Char) → Bool
  | 0, _, _ => false
  | k + 1, ps0, ss0 =>
    match ps0, ss0 with
    | [], ss => ss.isEmpty
    | p :: pr, ss =>
      if p = ['*', '*'] then
        segMatchFuel k pr ss ||
          (match ss with
           | [] => false
           | _ :: sr => segMatchFuel k (p :: pr) sr)
      else
        match ss with
        | [] => false
        | s :: sr => fnmatchL p s && segMatchFuel k pr sr

/-- Entry point for `segMatchFuel`: as for `fnmatchL`, the fuel starts
strictly above the measure `ps.length + ss.length` that every recursive
step decreases, so it only makes the recursion structural. -/
def segMatch (ps ss : List (List Char)) : Bool :=
  segMatchFuel (ps.length + ss.length + 1) ps ss

/-- Model of `glob.glob(pattern, recursive=True)` membership: does the
absolute pattern match the absolute path? -/
def globMatch (pattern path : String) : Bool :=
  segMatch (segsL (chars pattern)) (segsL (chars path))

/-- The filesystem as seen by the plugin: normalized absolute paths of
the regular files and of the directories that exist. -/
structure FS where
  files : List String
  dirs : List String
  deriving Repr, DecidableEq

/-- Model of `Path.exists()`. -/
def FS.pathExists (fsys : FS) (p : String) : Bool :=
  fsys.files.contains p || fsys.dirs.contains p

/-- Model of `Path.is_file()`. -/
def FS.isFile (fsys : FS) (p : String) : Bool :=
  fsys.files.contains p

/-- One configured mapping entry `{src, dest}` from the plugin's
`files` option. -/
structure Entry where
  src : String
  dest : String
  deriving Repr, DecidableEq

/-- The `ValueError`s `_expand_items` can raise. -/
inductive ExpErr where
  /-- `extrafiles: dest must be relative, got {dest}` -/
  | absDest (dest : String)
  /-- `When using glob in src='{src}', dest must be a directory` -/
  | globDestNotDir (src : String)
  deriving Repr, DecidableEq

/-- Model of one iteration of the loop body of
`ExtraFilesPlugin._expand_items` (plugin.py lines 87-113): the pairs
`(resolved source path, destination URI)` produced for one entry, or
the `ValueError` raised for it.  `cfgDir` is the plugin's absolute
`config_dir`. -/
def expandItem (cfgDir : String) (fsys : FS) (it : Entry) :
    Except ExpErr (List (String × String)) :=
  if isAbs it.dest then .error (.absDest it.dest)
  else if isGlobPat it.src then
    if !endsSep it.dest then .error (.globDestNotDir it.src)
    else
      let pattern :=
        if isAbs it.src then it.src
        else resolveAbs (cfgDir ++ "/" ++ it.src)
      let matched :=
        ((fsys.files ++ fsys.dirs).filter (fun p => globMatch pattern p)).map
          resolveAbs
      .ok (matched.filterMap (fun s =>
        if fsys.isFile s then
          some (s, posixJoinName (rstripSlashes it.dest) (baseName s))
        else none))
  else
    .ok [(resolveFrom cfgDir it.src, purePosix (bsToSlash it.dest))]

/-- Model of the whole `_expand_items` generator run to completion: the
concatenated pairs of all entries, or the first `ValueError` raised. -/
def expandItems (cfgDir : String) (fsys : FS) :
    List Entry → Except ExpErr (List (String × String))
  | [] => .ok []
  | e :: rest =>
    match expandItem cfgDir fsys e with
    | .error err => .error err
    | .ok ps =>
      match expandItems cfgDir fsys rest with
      | .error err => .error err
      | .ok rs => .ok (ps ++ rs)

/-- Decidable equality for `Except` results, so that concrete runs of
the expander can be checked by `decide`. -/
instance {ε α : Type} [DecidableEq ε] [DecidableEq α] :
    DecidableEq (Except ε α) := fun x y =>
  match x, y with
  | .error a, .error b =>
    if h : a = b then isTrue (by rw [h]) else isFalse (by simp [h])
  | .error _, .ok _ => isFalse (by simp)
  | .ok _, .error _ => isFalse (by simp)
  | .ok a, .ok b =>
    if h : a = b then isTrue (by rw [h]) else isFalse (by simp [h])

/-- One entry of the host's `Files` collection, as the plugin uses it:
`uri` is the path key (`src_uri`) the entry is stored under, `absSrc`
its absolute source path on disk, `generated` whether it was created by
`File.generated`.  The `id` field models CPython object identity: a
freshly constructed `File` object has an identity distinct from every
object already in the collection. -/
structure MFile where
  id : Nat
  uri : String
  absSrc : String
  generated : Bool
  deriving Repr, DecidableEq

/-- The host `Files` collection: its entry list plus the next fresh
object identity. -/
structure FilesState where
  entries : List MFile
  nextId : Nat
  deriving Repr, DecidableEq

/-- Model of `Files.get_file_from_path(uri)`: lookup in the `_src_uris`
dict, where the most recently appended entry for a URI wins. -/
def getFromPath (fs : FilesState) (uri : String) : Option MFile :=
  fs.entries.reverse.find? (fun f => f.uri == uri)

/-- Model of `Files.remove(f)`. -/
def removeFile (fs : FilesState) (f : MFile) : FilesState :=
  { fs with entries := fs.entries.erase f }

/-- Model of `files.append(File.generated(config, dest_uri,
abs_src_path=str(src)))`: a brand new generated entry is constructed
(fresh identity) and appended. -/
def appendGenerated (fs : FilesState) (uri absSrc : String) : FilesState :=
  { entries := fs.entries ++ [⟨fs.nextId, uri, absSrc, true⟩],
    nextId := fs.nextId + 1 }

/-- The exceptions `on_files` can raise: a `ValueError` escaping from
`_expand_items`, or the `FileNotFoundError` of line 119. -/
inductive RunErr where
  | expand (e : ExpErr)
  | notFound (src : String)
  deriving Repr, DecidableEq

/-- Model of the staging loop body of `on_files` (plugin.py lines
117-127) over a list of already-expanded pairs: each pair whose source
exists replaces any entry at its destination URI by a fresh generated
entry; a pair whose source is missing raises `FileNotFoundError`,
leaving the collection as it was at that moment. -/
def stagePairs (fsys : FS) :
    List (String × String) → FilesState → FilesState × Option RunErr
  | [], fs => (fs, none)
  | (src, dest) :: rest, fs =>
    if fsys.pathExists src then
      let fs1 :=
        match getFromPath fs dest with
        | some ex => removeFile fs ex
        | none => fs
      stagePairs fsys rest (appendGenerated fs1 dest src)
    else (fs, some (.notFound src))

/-- Model of `ExtraFilesPlugin.on_files`: the `_expand_items` generator
is consumed lazily, so each entry is expanded and its pairs staged
before the next entry is touched; the returned pair is the collection
at the end (or at the moment an exception is raised) together with the
exception, if any. -/
def onFiles (cfgDir : String) (fsys : FS) :
    List Entry → FilesState → FilesState × Option RunErr
  | [], files => (files, none)
  | e :: rest, files =>
    match expandItem cfgDir fsys e with
    | .error err => (files, some (.expand err))
    | .ok pairs =>
      match stagePairs fsys pairs files with
      | (fs1, some err) => (fs1, some err)
      | (fs1, none) => onFiles cfgDir fsys rest fs1

/-- The sources of a list of expanded pairs that exist on disk, in
order: exactly those `server.watch(str(src))` is called on. -/
def watchExisting (fsys : FS) (pairs : List (String × String)) : List String :=
  pairs.filterMap (fun p => if fsys.pathExists p.1 then some p.1 else none)

/-- Model of the `for src, _ in self._expand_items(): if src.exists():
server.watch(str(src))` loop of `on_serve`, before the surrounding
`try`: the accumulated watch list, plus the exception that escaped the
loop, if any (watches registered before the exception remain
registered). -/
def serveLoop (cfgDir : String) (fsys : FS) :
    List Entry → List String → List String × Option ExpErr
  | [], w => (w, none)
  | e :: rest, w =>
    match expandItem cfgDir fsys e with
    | .error err => (w, some err)
    | .ok pairs => serveLoop cfgDir fsys rest (w ++ watchExisting fsys pairs)

/-- Model of `ExtraFilesPlugin.on_serve`: the loop runs under
`try: ... except Exception: pass`, so any exception is discarded and
the server (its watch list) is returned in all cases. -/
def onServe (cfgDir : String) (fsys : FS) (entries : List Entry)
    (watched : List String) : List String :=
  (serveLoop cfgDir fsys entries watched).1

/-- The slice of the MkDocs config object `on_config` reads:
`config["docs_dir"]` and the optional `config_file_path` attribute. -/
structure MkConfig where
  docs_dir : String
  config_file_path : Option String
  deriving Repr, DecidableEq

/-- The plugin's own state: the `enabled` flag and `files` option, and
the `config_dir` attribute (absent, i.e. `none`, until `on_config` sets
it). -/
structure PluginState where
  enabled : Bool
  files : List Entry
  config_dir : Option String
  deriving Repr, DecidableEq

/-- Model of `Path(p).resolve().parent` for a path resolved against the
current working directory `cwd` when relative. -/
def parentDir (cwd p : String) : String :=
  let abs := if isAbs p then p else cwd ++ "/" ++ p
  String.mk ('/' :: joinSegs (((segsL (chars abs)).foldl normStep []).dropLast))

/-- Model of `ExtraFilesPlugin.on_config`: when the plugin is disabled
it returns the config unchanged at once; otherwise it sets `config_dir`
to the directory of the config file (falling back to `Path.cwd()` when
`config_file_path` is absent or empty, since `if config_path:` treats
the empty string as falsy) and returns the config.  `cwd` is the
process's absolute current working directory. -/
def onConfig (p : PluginState) (cwd : String) (cfg : MkConfig) :
    PluginState × MkConfig :=
  if !p.enabled then (p, cfg)
  else
    let cd :=
      match cfg.config_file_path with
      | some cp => if cp = "" then cwd else parentDir cwd cp
      | none => cwd
    ({ p with config_dir := some cd }, cfg)

/-- Fixture: the filesystem of the same-basename scenario (two files
called `shared.txt` under the glob root, at different depths). -/
def fsShared : FS :=
  ⟨["/proj/assets/shared.txt", "/proj/assets/nested/shared.txt"],
   ["/proj", "/proj/assets", "/proj/assets/nested"]⟩

/-- Fixture: the filesystem of the `assets/**/*.txt` expansion
scenario. -/
def fsAssets : FS :=
  ⟨["/proj/assets/first.txt", "/proj/assets/nested/second.txt",
    "/proj/assets/nested/ignore.bin"],
   ["/proj", "/proj/assets", "/proj/assets/nested"]⟩

/-- Fixture: a filesystem holding the single regular file
`/proj/a.txt`. -/
def fsOne : FS :=
  ⟨["/proj/a.txt"], ["/proj"]⟩

/-- Fixture: an empty host file collection. -/
def files0 : FilesState :=
  ⟨[], 0⟩

@[simp]
theorem chars_mk (l : List Char) : chars (String.mk l) = l :=
  rfl

theorem splitSlash_ne_nil (l : List Char) : splitSlash l ≠ [] := by
  cases l with
  | nil => simp [splitSlash]
  | cons c cs =>
    simp only [splitSlash]
    split
    · simp
    · split <;> simp

theorem splitSlash_no_slash (l : List Char) : ∀ s ∈ splitSlash l, '/' ∉ s := by
  induction l with
  | nil =>
    intro s hs
    simp [splitSlash] at hs
    simp [hs]
  | cons c cs ih =>
    intro s hs
    simp only [splitSlash] at hs
    by_cases hc : c = '/'
    · simp only [if_pos hc, List.mem_cons] at hs
      rcases hs with h | h
      · simp [h]
      · exact ih s h
    · rw [if_neg hc] at hs
      rcases hrec : splitSlash cs with _ | ⟨h0, t⟩
      · exact absurd hrec (splitSlash_ne_nil cs)
      · rw [hrec] at hs
        simp only [List.mem_cons] at hs
        rcases hs with h | h
        · subst h
          intro hmem
          rcases List.mem_cons.mp hmem with h1 | h1
          · exact hc h1.symm
          · exact ih h0 (hrec ▸ List.mem_cons_self h0 t) h1
        · exact ih s (hrec ▸ List.mem_cons_of_mem h0 h)

theorem segsL_mem {l s : List Char} (h : s ∈ segsL l) :
    s ∈ splitSlash l ∧ s ≠ [] := by
  simp only [segsL, List.mem_filter] at h
  exact ⟨h.1, by simpa [List.isEmpty_eq_false] using h.2⟩

theorem segsL_no_slash {l s : List Char} (h : s ∈ segsL l) : '/' ∉ s :=
  splitSlash_no_slash l s (segsL_mem h).1

theorem baseNameL_no_slash (l : List Char) : '/' ∉ baseNameL l := by
  unfold baseNameL
  cases h : (segsL l).getLast? with
  | none => simp
  | some s => simpa using segsL_no_slash (List.mem_of_mem_getLast? h)

theorem joinSegs_head {parts : List (List Char)}
    (hne : ∀ s ∈ parts, s ≠ []) (hsl : ∀ s ∈ parts, '/' ∉ s) :
    (joinSegs parts).head? ≠ some '/' := by
  match parts with
  | [] => simp [joinSegs]
  | s :: rest =>
    have hs1 : s ≠ [] := hne s (List.mem_cons_self s rest)
    have hs2 : '/' ∉ s := hsl s (List.mem_cons_self s rest)
    rcases s with _ | ⟨a, as⟩
    · exact absurd rfl hs1
    · have ha : a ≠ '/' := by
        intro h
        exact hs2 (h ▸ List.mem_cons_self a as)
      cases rest with
      | nil =>
        simp only [joinSegs, List.head?]
        intro h
        exact ha (Option.some.inj h)
      | cons r rs =>
        simp only [joinSegs, List.cons_append, List.head?]
        intro h
        exact ha (Option.some.inj h)

theorem posixBody_head (l : List Char) : (posixBody l).head? ≠ some '/' := by
  unfold posixBody
  apply joinSegs_head
  · intro s hs
    simp only [List.mem_filter, Bool.and_eq_true, Bool.not_eq_true',
      List.isEmpty_eq_false] at hs
    exact hs.2.1
  · intro s hs
    simp only [List.mem_filter] at hs
    exact splitSlash_no_slash l s hs.1

theorem purePosixL_ne_nil (l : List Char) : purePosixL l ≠ [] := by
  unfold purePosixL
  split
  · split <;> simp
  · simp
  · split <;> simp_all

theorem purePosixL_head {l : List Char} (h : l.head? ≠ some '/') :
    (purePosixL l).head? ≠ some '/' := by
  unfold purePosixL
  split
  · simp at h
  · simp at h
  · split
    · simp
    · exact posixBody_head l

theorem rstripL_prefix (l : List Char) : rstripL l <+: l := by
  unfold rstripL
  conv_rhs => rw [← List.reverse_reverse l]
  exact List.reverse_prefix.mpr (List.dropWhile_suffix _)

theorem rstripL_head (l : List Char) :
    rstripL l = [] ∨ (rstripL l).head? = l.head? := by
  rcases rstripL_prefix l with ⟨t, ht⟩
  cases hr : rstripL l with
  | nil => exact Or.inl rfl
  | cons a as =>
    right
    rw [← ht, hr]
    simp [List.head?_append]

theorem joinNameL_head {d name : List Char} (hd : d.head? ≠ some '/')
    (hn : '/' ∉ name) : (joinNameL d name).head? ≠ some '/' := by
  have hb := purePosixL_head hd
  have hbn := purePosixL_ne_nil d
  unfold joinNameL
  split
  · rcases name with _ | ⟨a, as⟩
    · simp
    · simp only [List.head?]
      intro h
      exact hn (Option.some.inj h ▸ List.mem_cons_self a as)
  · split <;>
    · rw [List.head?_append]
      rcases hB : purePosixL d with _ | ⟨b, bs⟩
      · exact absurd hB hbn
      · rw [hB] at hb
        simpa using hb

theorem glob_uri_rel (dest : String) (hd : isAbs dest = false) (s : String) :
    isAbs (posixJoinName (rstripSlashes dest) (baseName s)) = false := by
  simp only [isAbs, beq_eq_false_iff_ne, ne_eq] at hd ⊢
  simp only [posixJoinName, rstripSlashes, baseName, chars_mk]
  apply joinNameL_head
  · rcases rstripL_head (chars dest) with h | h
    · simp [h]
    · rw [h]
      exact hd
  · exact baseNameL_no_slash _

theorem lit_uri_rel (dest : String) (hd : isAbs dest = false)
    (hb : (chars dest).head? ≠ some '\\') :
    isAbs (purePosix (bsToSlash dest)) = false := by
  simp only [isAbs, beq_eq_false_iff_ne, ne_eq] at hd ⊢
  simp only [purePosix, bsToSlash, chars_mk]
  apply purePosixL_head
  simp only [bsToSlashL, List.head?_map]
  cases hh : (chars dest).head? with
  | none => simp
  | some c =>
    rw [hh] at hd hb
    simp only [Option.map_some']
    intro h
    have hc := Option.some.inj h
    by_cases hbs : c = '\\'
    · exact hb (by rw [hbs])
    · rw [if_neg hbs] at hc
      exact hd (by rw [hc])

/-- C1: the claim states that recursive glob matches preserve the path
segments beneath the glob root, so that two matched files with
identical basenames in different subdirectories get two distinct
destination URIs.  The code (plugin.py line 104, `rel_name = s.name`)
instead uses only the matched file's basename: expanding
`assets/**/*.txt` over `assets/shared.txt` and
`assets/nested/shared.txt` maps both files to the same destination URI
`external/shared.txt`.  This contradicts the repository's own test
`test_expand_items_preserves_relative_structure`. -/
theorem spec_C1_basename_collision :
    expandItem "/proj" fsShared ⟨"assets/**/*.txt", "external/"⟩ =
      .ok [("/proj/assets/shared.txt", "external/shared.txt"),
           ("/proj/assets/nested/shared.txt", "external/shared.txt")] := by
  decide

/-- C2: the claim (and the repository's test
`test_expand_items_expands_glob_sources`) expects the destination URI
set `{external/first.txt, external/nested/second.txt}` for the glob
entry `{src: assets/**/*.txt, dest: external/}`; the code instead
produces `{external/first.txt, external/second.txt}` because the glob
branch keeps only the basename of each match. -/
theorem spec_C2_glob_expansion :
    expandItem "/proj" fsAssets ⟨"assets/**/*.txt", "external/"⟩ =
      .ok [("/proj/assets/first.txt", "external/first.txt"),
           ("/proj/assets/nested/second.txt", "external/second.txt")] ∧
    ((expandItem "/proj" fsAssets ⟨"assets/**/*.txt", "external/"⟩).toOption.getD
        []).map Prod.snd = ["external/first.txt", "external/second.txt"] := by
  decide

/-- C3 counterexample: the destination `\foo` is relative for
`Path.is_absolute` (no leading `/`), so it is not rejected; yet the
literal branch converts backslashes to forward slashes, and the emitted
destination URI is the absolute `/foo`.  This refutes the claimed
invariant that every destination URI that expansion actually emits is
relative. -/
theorem spec_C3_cex :
    expandItem "/proj" fsOne ⟨"x.txt", "\\foo"⟩ =
      .ok [("/proj/x.txt", "/foo")] ∧
    isAbs "\\foo" = false ∧ isAbs "/foo" = true := by
  decide

/-- C3 (amended): for every entry whose `dest` is an absolute path,
`_expand_items` raises the `ValueError` regardless of `src` shape; and
every destination URI that expansion emits is relative, provided the
entry's `dest` does not begin with a backslash (a leading backslash in
a literal `dest` is normalized to a forward slash and yields an
absolute URI). -/
theorem spec_C3_amended (cfgDir : String) (fsys : FS) (it : Entry) :
    (isAbs it.dest = true →
      expandItem cfgDir fsys it = .error (.absDest it.dest)) ∧
    ((chars it.dest).head? ≠ some '\\' →
      ∀ pairs, expandItem cfgDir fsys it = .ok pairs →
        ∀ pr ∈ pairs, isAbs pr.2 = false) := by
  constructor
  · intro h
    simp [expandItem, h]
  · intro hbs pairs hok pr hmem
    by_cases habs : isAbs it.dest
    · simp [expandItem, habs] at hok
    · rw [Bool.not_eq_true] at habs
      by_cases hglob : isGlobPat it.src
      · by_cases hsep : endsSep it.dest
        · simp only [expandItem, habs, hglob, hsep, Bool.not_true, if_false,
            if_true, Bool.false_eq_true, Except.ok.injEq] at hok
          subst hok
          rcases List.mem_filterMap.mp hmem with ⟨a, _, hfa⟩
          by_cases hf : fsys.isFile a
          · rw [if_pos hf] at hfa
            rcases Option.some.inj hfa with rfl
            exact glob_uri_rel it.dest habs a
          · rw [if_neg hf] at hfa
            exact absurd hfa (by simp)
        · simp [expandItem, habs, hglob, hsep] at hok
      · simp only [expandItem, habs, hglob, Bool.false_eq_true, if_false,
          Except.ok.injEq] at hok
        subst hok
        rcases List.mem_singleton.mp hmem with rfl
        exact lit_uri_rel it.dest habs hbs

/-- C3 amended witness: the absolute destination `/abs` is rejected for
a literal src, and the concrete literal entry `{src: x.txt, dest:
d/x.txt}` emits only relative URIs. -/
theorem spec_C3_amended_witness :
    expandItem "/proj" fsOne ⟨"x.txt", "/abs"⟩ =
      .error (.absDest "/abs") ∧
    ∀ pr ∈ [(("/proj/x.txt" : String), ("d/x.txt" : String))],
      isAbs pr.2 = false :=
  ⟨(spec_C3_amended "/proj" fsOne ⟨"x.txt", "/abs"⟩).1 (by decide),
   (spec_C3_amended "/proj" fsOne ⟨"x.txt", "d/x.txt"⟩).2 (by decide)
     [("/proj/x.txt", "d/x.txt")] (by decide)⟩

/-- C4: for every entry whose `src` contains a glob metacharacter
(`*`, `?` or `[`) and whose `dest` does not end with a directory
separator (`/` or `\`), `_expand_items` raises a `ValueError` (the
glob-destination error, or the absolute-destination error checked
first) and produces no pair for the entry. -/
theorem spec_C4_glob_dest_error (cfgDir : String) (fsys : FS) (it : Entry)
    (hglob : isGlobPat it.src = true) (hsep : endsSep it.dest = false) :
    ∃ err, expandItem cfgDir fsys it = .error err := by
  by_cases habs : isAbs it.dest
  · exact ⟨.absDest it.dest, by simp [expandItem, habs]⟩
  · rw [Bool.not_eq_true] at habs
    exact ⟨.globDestNotDir it.src, by simp [expandItem, habs, hglob, hsep]⟩

/-- C4 witness: the glob entry `{src: *.txt, dest: external}` is
rejected. -/
theorem spec_C4_glob_dest_error_witness :
    isGlobPat "*.txt" = true ∧ endsSep "external" = false ∧
    ∃ err, expandItem "/proj" fsOne ⟨"*.txt", "external"⟩ = .error err :=
  ⟨by decide, by decide,
   spec_C4_glob_dest_error "/proj" fsOne ⟨"*.txt", "external"⟩
     (by decide) (by decide)⟩

/-- C5 counterexample: for the literal entry
`{src: /abs/sub/../file.txt, dest: external//notes.txt}` the code
emits the pair `(/abs/file.txt, external/notes.txt)`: the source is
NOT `src` taken as-is (line 111 calls `resolve()` on absolute sources
too), and the destination URI is NOT `dest` with backslashes converted
(`PurePosixPath` also collapses the duplicate slash). -/
theorem spec_C5_cex :
    expandItem "/proj" fsOne ⟨"/abs/sub/../file.txt", "external//notes.txt"⟩ =
      .ok [("/abs/file.txt", "external/notes.txt")] ∧
    ("/abs/file.txt" : String) ≠ "/abs/sub/../file.txt" ∧
    ("external/notes.txt" : String) ≠ bsToSlash "external//notes.txt" := by
  decide

/-- C5 (amended): for every literal (non-glob) entry with a relative
`dest`, `_expand_items` emits exactly one pair, whose destination URI
is the `PurePosixPath` normalization of `dest` with backslashes
converted to forward slashes, and whose source is the lexically
resolved absolute path of `src` against `config_dir` when `src` is
relative (of `src` itself when absolute); the emitted source is always
absolute, and the result does not consult the filesystem (existence is
not checked at this stage). -/
theorem spec_C5_amended (cfgDir : String) (fsys fsys' : FS) (it : Entry)
    (hlit : isGlobPat it.src = false) (hrel : isAbs it.dest = false) :
    expandItem cfgDir fsys it =
      .ok [(resolveFrom cfgDir it.src, purePosix (bsToSlash it.dest))] ∧
    isAbs (resolveFrom cfgDir it.src) = true ∧
    expandItem cfgDir fsys it = expandItem cfgDir fsys' it := by
  refine ⟨by simp [expandItem, hrel, hlit], ?_, by simp [expandItem, hrel, hlit]⟩
  simp [resolveFrom, resolveAbs, resolveAbsL, isAbs]

/-- C5 amended witness: concrete literal entry with a backslash in the
destination, evaluated against two different filesystems. -/
theorem spec_C5_amended_witness :
    expandItem "/proj" fsOne ⟨"notes.txt", "external\\notes.txt"⟩ =
      .ok [(resolveFrom "/proj" "notes.txt",
            purePosix (bsToSlash "external\\notes.txt"))] ∧
    isAbs (resolveFrom "/proj" "notes.txt") = true ∧
    expandItem "/proj" fsOne ⟨"notes.txt", "external\\notes.txt"⟩ =
      expandItem "/proj" fsShared ⟨"notes.txt", "external\\notes.txt"⟩ :=
  spec_C5_amended "/proj" fsOne fsShared ⟨"notes.txt", "external\\notes.txt"⟩
    (by decide) (by decide)

theorem serveLoop_ok (cfgDir : String) (fsys : FS) :
    ∀ (entries : List Entry) (w : List String)
      (pairs : List (String × String)),
      expandItems cfgDir fsys entries = .ok pairs →
      serveLoop cfgDir fsys entries w = (w ++ watchExisting fsys pairs, none) := by
  intro entries
  induction entries with
  | nil =>
    intro w pairs h
    simp only [expandItems, Except.ok.injEq] at h
    subst h
    simp [serveLoop, watchExisting]
  | cons e rest ih =>
    intro w pairs h
    simp only [expandItems] at h
    cases h1 : expandItem cfgDir fsys e with
    | error err =>
      rw [h1] at h
      simp at h
    | ok ps =>
      rw [h1] at h
      cases h2 : expandItems cfgDir fsys rest with
      | error err =>
        rw [h2] at h
        simp at h
      | ok rs =>
        rw [h2] at h
        simp only [Except.ok.injEq] at h
        subst h
        simp only [serveLoop, h1]
        rw [ih (w ++ watchExisting fsys ps) rs h2]
        simp [watchExisting, List.filterMap_append, List.append_assoc]

/-- C6 counterexample: with two entries whose first source exists and
whose second source is missing, `on_files` raises the not-found error
after already having staged the first pair, so the host collection has
been mutated (an insertion happened) at the moment the error is
raised. -/
theorem spec_C6_cex :
    onFiles "/proj" fsOne [⟨"a.txt", "d/a.txt"⟩, ⟨"missing.txt", "d/m.txt"⟩]
        files0 =
      (⟨[⟨0, "d/a.txt", "/proj/a.txt", true⟩], 1⟩,
       some (.notFound "/proj/missing.txt")) ∧
    (⟨[⟨0, "d/a.txt", "/proj/a.txt", true⟩], 1⟩ : FilesState) ≠ files0 := by
  decide

/-- C6 (amended): when the staging loop of `on_files` reaches an
expanded pair whose source does not exist, it raises the
`FileNotFoundError` with the collection exactly as it was at that
moment: the failing pair causes no removal and no insertion (though
pairs staged before it remain staged).  In particular, when the failing
pair is the first pair of the first entry, `on_files` raises with the
collection completely unmutated. -/
theorem spec_C6_amended (cfgDir : String) (fsys : FS) (e : Entry)
    (src dest : String) (rest : List (String × String)) (fs : FilesState)
    (hmiss : fsys.pathExists src = false) :
    stagePairs fsys ((src, dest) :: rest) fs =
      (fs, some (.notFound src)) ∧
    (expandItem cfgDir fsys e = .ok ((src, dest) :: rest) →
      onFiles cfgDir fsys [e] fs = (fs, some (.notFound src))) := by
  have h1 : stagePairs fsys ((src, dest) :: rest) fs =
      (fs, some (.notFound src)) := by
    simp [stagePairs, hmiss]
  exact ⟨h1, fun hexp => by simp [onFiles, hexp, h1]⟩

/-- C6 amended witness: a single missing literal source raises the
not-found error with the collection unchanged. -/
theorem spec_C6_amended_witness :
    stagePairs fsOne [("/proj/missing.txt", "d/m.txt")] files0 =
      (files0, some (.notFound "/proj/missing.txt")) ∧
    onFiles "/proj" fsOne [⟨"missing.txt", "d/m.txt"⟩] files0 =
      (files0, some (.notFound "/proj/missing.txt")) :=
  ⟨(spec_C6_amended "/proj" fsOne ⟨"missing.txt", "d/m.txt"⟩
      "/proj/missing.txt" "d/m.txt" [] files0 (by decide)).1,
   (spec_C6_amended "/proj" fsOne ⟨"missing.txt", "d/m.txt"⟩
      "/proj/missing.txt" "d/m.txt" [] files0 (by decide)).2 (by decide)⟩

/-- C7: staging an expanded pair whose source exists removes the entry
already present in the collection at the destination URI and appends a
freshly generated entry bound to the resolved source; afterwards the
lookup at the destination URI returns the new entry, which is a
distinct object from the pre-existing one (its identity is fresh) and
whose source path is the new source. -/
theorem spec_C7_replace (fsys : FS) (src dest : String) (fs : FilesState)
    (ex : MFile) (hsrc : fsys.pathExists src = true)
    (hex : getFromPath fs dest = some ex)
    (hids : ∀ f ∈ fs.entries, f.id < fs.nextId) :
    stagePairs fsys [(src, dest)] fs =
      (⟨(fs.entries.erase ex) ++ [⟨fs.nextId, dest, src, true⟩],
        fs.nextId + 1⟩, none) ∧
    getFromPath (stagePairs fsys [(src, dest)] fs).1 dest =
      some ⟨fs.nextId, dest, src, true⟩ ∧
    ex ≠ (⟨fs.nextId, dest, src, true⟩ : MFile) := by
  have hmain : stagePairs fsys [(src, dest)] fs =
      (⟨(fs.entries.erase ex) ++ [⟨fs.nextId, dest, src, true⟩],
        fs.nextId + 1⟩, none) := by
    simp [stagePairs, hsrc, hex, removeFile, appendGenerated]
  refine ⟨hmain, ?_, ?_⟩
  · rw [hmain]
    simp only [getFromPath, List.reverse_append, List.reverse_cons,
      List.reverse_nil, List.nil_append, List.cons_append]
    rw [List.find?_cons_of_pos _ (by simp)]
  · intro hcontra
    have hmem : ex ∈ fs.entries :=
      List.mem_reverse.mp (List.mem_of_find?_eq_some hex)
    have hlt := hids ex hmem
    rw [hcontra] at hlt
    simp at hlt

/-- C7 witness: a collection holding one scanned entry at `d/a.txt` is
restaged from the existing source `/proj/a.txt`. -/
theorem spec_C7_replace_witness :
    stagePairs fsOne [("/proj/a.txt", "d/a.txt")]
        ⟨[⟨0, "d/a.txt", "/old/a.txt", false⟩], 1⟩ =
      (⟨[⟨1, "d/a.txt", "/proj/a.txt", true⟩], 2⟩, none) ∧
    getFromPath (stagePairs fsOne [("/proj/a.txt", "d/a.txt")]
        ⟨[⟨0, "d/a.txt", "/old/a.txt", false⟩], 1⟩).1 "d/a.txt" =
      some ⟨1, "d/a.txt", "/proj/a.txt", true⟩ ∧
    (⟨0, "d/a.txt", "/old/a.txt", false⟩ : MFile) ≠
      ⟨1, "d/a.txt", "/proj/a.txt", true⟩ :=
  spec_C7_replace fsOne "/proj/a.txt" "d/a.txt"
    ⟨[⟨0, "d/a.txt", "/old/a.txt", false⟩], 1⟩
    ⟨0, "d/a.txt", "/old/a.txt", false⟩ (by decide) (by decide) (by decide)

/-- C8: `on_serve` returns the server in all cases — it is the first
component of the loop's result, so an exception escaping the loop is
discarded and the watches registered before it are kept; when expansion
succeeds it registers exactly the expanded sources that exist on disk,
in order, skipping the pairs whose source is missing; and a source is
registered iff some expanded pair carries it and it exists on disk. -/
theorem spec_C8_serve (cfgDir : String) (fsys : FS) (entries : List Entry)
    (w : List String) :
    onServe cfgDir fsys entries w = (serveLoop cfgDir fsys entries w).1 ∧
    (∀ pairs, expandItems cfgDir fsys entries = .ok pairs →
      onServe cfgDir fsys entries w = w ++ watchExisting fsys pairs) ∧
    (∀ (pairs : List (String × String)) (s : String),
      s ∈ watchExisting fsys pairs ↔
        ∃ d, (s, d) ∈ pairs ∧ fsys.pathExists s = true) := by
  refine ⟨rfl, fun pairs h => ?_, fun pairs s => ?_⟩
  · unfold onServe
    rw [serveLoop_ok cfgDir fsys entries w pairs h]
  · unfold watchExisting
    constructor
    · intro hs
      rcases List.mem_filterMap.mp hs with ⟨⟨a1, a2⟩, ha, hfa⟩
      by_cases hp : fsys.pathExists a1 = true
      · simp only [hp, if_true] at hfa
        rcases Option.some.inj hfa with rfl
        exact ⟨a2, ha, hp⟩
      · simp only [hp, if_false] at hfa
        exact absurd hfa (by simp [hp])
    · rintro ⟨d, hd, hp⟩
      exact List.mem_filterMap.mpr ⟨(s, d), hd, by simp [hp]⟩

/-- C8 witness: with one existing and one missing source, `on_serve`
registers exactly the existing one. -/
theorem spec_C8_serve_witness :
    onServe "/proj" fsOne
        [⟨"a.txt", "d/a.txt"⟩, ⟨"missing.txt", "d/m.txt"⟩] [] =
      [] ++ watchExisting fsOne
        [("/proj/a.txt", "d/a.txt"), ("/proj/missing.txt", "d/m.txt")] :=
  (spec_C8_serve "/proj" fsOne
      [⟨"a.txt", "d/a.txt"⟩, ⟨"missing.txt", "d/m.txt"⟩] []).2.1
    [("/proj/a.txt", "d/a.txt"), ("/proj/missing.txt", "d/m.txt")] (by decide)

/-- C9: when the plugin's enabled flag is false, `on_config` returns
the input configuration unchanged and leaves the expander's base
directory `config_dir` exactly as it was (still unset). -/
theorem spec_C9_disabled (p : PluginState) (cwd : String) (cfg : MkConfig)
    (hdis : p.enabled = false) :
    onConfig p cwd cfg = (p, cfg) ∧
    (onConfig p cwd cfg).1.config_dir = p.config_dir := by
  have h : onConfig p cwd cfg = (p, cfg) := by simp [onConfig, hdis]
  exact ⟨h, by rw [h]⟩

/-- C9 witness: a disabled plugin instance with `config_dir` unset. -/
theorem spec_C9_disabled_witness :
    onConfig ⟨false, [], none⟩ "/cwd"
        ⟨"/proj/docs", some "/proj/mkdocs.yml"⟩ =
      (⟨false, [], none⟩, ⟨"/proj/docs", some "/proj/mkdocs.yml"⟩) ∧
    (onConfig ⟨false, [], none⟩ "/cwd"
        ⟨"/proj/docs", some "/proj/mkdocs.yml"⟩).1.config_dir =
      (⟨false, [], none⟩ : PluginState).config_dir :=
  spec_C9_disabled ⟨false, [], none⟩ "/cwd"
    ⟨"/proj/docs", some "/proj/mkdocs.yml"⟩ rfl

/-- C10: with an empty configured files list, `on_files` returns the
very collection it was given, with no error and no mutation, and
`on_serve` registers no watch paths (the server's watch list is
unchanged). -/
theorem spec_C10_empty (cfgDir : String) (fsys : FS) (files : FilesState)
    (w : List String) :
    onFiles cfgDir fsys [] files = (files, none) ∧
    onServe cfgDir fsys [] w = w :=
  ⟨rfl, rfl⟩

end ExtraFiles
